import Mathlib

/-!
Verification of the line/block-oriented text-editing engine and the
shell-command mocking framework of the `scripting` package.

The embedding follows `src/regex.ts`, `src/text.ts` and `src/shell.ts`.
A JavaScript string is a Lean `String`; `content.split('\n')` and
`join('\n')` are modelled by structurally recursive functions on the
character list; `Array.prototype.splice` start-index normalisation is
modelled exactly (negative starts count from the end, then clamp).
A `string | RegExp` search value is the inductive `Pattern`: a literal
string is matched per `regex`/`anchoredRegex` after metacharacter
escaping (substring / whole-subject match), and a caller-supplied RegExp
is opaque, modelled by its Boolean test function.  Methods that can
`throw` return `Except String`; in the source every `this.content`
assignment comes after all throw sites, so an error leaves the document
unchanged, which `runOp` makes explicit.
-/

namespace Scripting

/-- Characters escaped by `escapeRegex` (src/regex.ts): `[.*+?^$\x7b\x7d()|[\]\\]`. -/
def escapeRegexChars : List Char :=
  ['.', '*', '+', '?', '^', '$', '\x7b', '\x7d', '(', ')', '|', '[', ']', '\\']

/-- Embeds `escapeRegex` (src/regex.ts): prefix a backslash to every regex
metacharacter of the literal string. -/
def escapeRegex (s : String) : String :=
  String.mk (s.data.foldr (fun c acc => (if c ∈ escapeRegexChars then ['\\', c] else [c]) ++ acc) [])

/-- A `string | RegExp` search input.  `lit` is a literal string (JS escapes it
before compiling, so it matches as a raw substring); `re` is a caller-supplied
RegExp, which the source uses verbatim, modelled by its Boolean test. -/
inductive Pattern where
  | lit : String → Pattern
  | re : (String → Bool) → Pattern

/-- Boolean list-level check that `pat` starts `l`. -/
def isPrefixB : List Char → List Char → Bool
  | [], _ => true
  | _ :: _, [] => false
  | a :: as, b :: bs => a == b && isPrefixB as bs

/-- Boolean list-level check that `pat` occurs contiguously inside the second
list (the behaviour of an escaped-literal RegExp built by `regex`). -/
def containsB (pat : List Char) : List Char → Bool
  | [] => isPrefixB pat []
  | b :: bs => isPrefixB pat (b :: bs) || containsB pat bs

/-- Embeds `line.match(regex(value))` (unanchored form, src/regex.ts `regex`):
a literal matches as a substring anywhere; a RegExp is used verbatim. -/
def Pattern.matchLine : Pattern → String → Bool
  | .lit s, line => containsB s.data line.data
  | .re t, line => t line

/-- Embeds `anchoredRegex(value).exec(subject)` (src/regex.ts): a literal is
wrapped in `^...$`, so it matches only the exact whole subject; a RegExp is
used verbatim. -/
def Pattern.anchoredTest : Pattern → String → Bool
  | .lit s, subject => s == subject
  | .re t, subject => t subject

/-- JavaScript truthiness of a `string | RegExp` value: the empty string is
falsy, every other string and every RegExp object is truthy. -/
def Pattern.truthy : Pattern → Bool
  | .lit s => !(s == "")
  | .re _ => true

/-- String interpolation of the compiled pattern (used in error messages):
`regex(s)` prints as `/escaped s/`.  A caller-supplied RegExp prints its own
source, which the opaque model cannot recover. -/
def Pattern.toStr : Pattern → String
  | .lit s => "/" ++ escapeRegex s ++ "/"
  | .re _ => "/<RegExp>/"

/-- Embeds `content.split('\n')` at the character-list level.  Splitting the
empty string yields `[[]]`; a trailing newline yields a trailing empty line. -/
def splitNl : List Char → List (List Char)
  | [] => [[]]
  | c :: cs =>
    if c = '\n' then [] :: splitNl cs
    else
      match splitNl cs with
      | [] => [[c]]
      | l :: ls => (c :: l) :: ls

/-- Embeds `lines.join('\n')` at the character-list level. -/
def joinNl : List (List Char) → List Char
  | [] => []
  | [l] => l
  | l :: ls => l ++ '\n' :: joinNl ls

/-- Embeds `Text.lines()` (src/text.ts): the content split on newlines. -/
def linesOf (content : String) : List String :=
  (splitNl content.data).map String.mk

/-- Embeds `lines.join('\n')` on strings. -/
def joinLines (ls : List String) : String :=
  String.mk (joinNl (ls.map String.data))

/-- List with indices attached, starting from `n` (models the `(it, index)`
callbacks of `map`, `forEach` and `findIndex`). -/
def enumF : Nat → List α → List (Nat × α)
  | _, [] => []
  | n, a :: as => (n, a) :: enumF (n + 1) as

/-- Element at an index (models `xs[i]`, `none` when out of range). -/
def nthF : List α → Nat → Option α
  | [], _ => none
  | a :: _, 0 => some a
  | _ :: as, n + 1 => nthF as n

/-- Replace the element at an index, if in range. -/
def listSetF : List α → Nat → α → List α
  | [], _, _ => []
  | _ :: as, 0, b => b :: as
  | a :: as, n + 1, b => a :: listSetF as n b

/-- Index of the first element satisfying `p` (models `Array.findIndex`,
with `none` for `-1`). -/
def findIdxF (p : α → Bool) : List α → Option Nat
  | [] => none
  | a :: as => if p a then some 0 else (findIdxF p as).map (· + 1)

/-- The start-index normalisation of `Array.prototype.splice`: a negative
start counts back from the end (clamped at 0), a start beyond the length is
clamped to the length. -/
def spliceStart (start : Int) (len : Nat) : Nat :=
  if start < 0 then (max (start + len) 0).toNat else min start.toNat len

/-- Embeds `lines.splice(start, 0, line)`: insert one element. -/
def spliceInsert (ls : List String) (start : Int) (line : String) : List String :=
  let s := spliceStart start ls.length
  ls.take s ++ line :: ls.drop s

/-- Embeds `lines.splice(start, count)`: delete `count` elements. -/
def spliceDeleteCount (ls : List String) (start : Int) (count : Nat) : List String :=
  let s := spliceStart start ls.length
  ls.take s ++ ls.drop (s + count)

/-- The `InsertLineOptions` object of src/text.ts.  `atPos` models the `at`
key (`at` is a reserved word in Lean); a missing key is `none`. -/
structure InsertLineOptions where
  atPos : Option Int := none
  above : Option Pattern := none
  aboveEvery : Option Pattern := none
  below : Option Pattern := none
  belowEvery : Option Pattern := none

/-- Truthiness of an optional pattern value (`undefined` and `""` are falsy). -/
def optTruthy (o : Option Pattern) : Bool :=
  match o with
  | none => false
  | some p => p.truthy

/-- Truthiness of the optional `at` value (`undefined` and `0` are falsy). -/
def atTruthy (o : Option Int) : Bool :=
  match o with
  | none => false
  | some n => !(n == 0)

/-- Embeds the `usedKeys` computation of `insertLine`: the locator keys whose
values are truthy, in declaration order. -/
def usedKeys (w : InsertLineOptions) : List String :=
  (if atTruthy w.atPos then ["at"] else []) ++
  (if optTruthy w.above then ["above"] else []) ++
  (if optTruthy w.aboveEvery then ["aboveEvery"] else []) ++
  (if optTruthy w.below then ["below"] else []) ++
  (if optTruthy w.belowEvery then ["belowEvery"] else [])

/-- The ambiguous-locator error message of `insertLine`. -/
def ambiguousMsg (w : InsertLineOptions) : String :=
  "Please specify only one of these keys: " ++ String.intercalate ", " (usedKeys w)

/-- The missing-locator error message of `insertLine`. -/
def locatorKeysMsg : String :=
  "Please specify one of these keys: at, above, aboveEvery, below, belowEvery"

/-- The no-matching-line error message of `insertLine` and `deleteLine`. -/
def noLineMsg (p : Pattern) : String := "No line found matching " ++ p.toStr

/-- The no-matching-block error message of `deleteBlock`. -/
def noBlockMsg (ps : List Pattern) : String :=
  "No block found matching\n\n" ++ String.intercalate "\n" (ps.map Pattern.toStr)

/-- Embeds `Text.insertLine` (src/text.ts).  A thrown `Error` is the `.error`
case; in the source `this.content` is assigned only after every throw site,
so an error leaves the content untouched. -/
def insertLine (line : String) (w : InsertLineOptions) (content : String) :
    Except String String :=
  if (usedKeys w).length > 1 then .error (ambiguousMsg w)
  else
    let ls := linesOf content
    match w.atPos with
    | some n =>
      let pos : Int := if 0 ≤ n then n else n + ls.length + 1
      .ok (joinLines (spliceInsert ls pos line))
    | none =>
      if optTruthy w.above || optTruthy w.below then
        let offset : Nat := if optTruthy w.above then 0 else 1
        match (if optTruthy w.above then w.above else w.below) with
        | some pat =>
          match findIdxF (fun it => pat.matchLine it) ls with
          | none => .error (noLineMsg pat)
          | some row => .ok (joinLines (spliceInsert ls ((row + offset : Nat) : Int) line))
        | none => .error "unreachable"
      else if optTruthy w.aboveEvery || optTruthy w.belowEvery then
        let offset : Nat := if optTruthy w.aboveEvery then 0 else 1
        match (if optTruthy w.aboveEvery then w.aboveEvery else w.belowEvery) with
        | some pat =>
          let rows := ((enumF 0 ls).filter (fun il => pat.matchLine il.2)).map (fun il => il.1)
          .ok (joinLines ((enumF 0 rows).foldl
            (fun acc kr => spliceInsert acc ((kr.2 + offset + kr.1 : Nat) : Int) line) ls))
        | none => .error "unreachable"
      else .error locatorKeysMsg

/-- Embeds `Text.deleteLine` (src/text.ts). -/
def deleteLine (p : Pattern) (content : String) : Except String String :=
  let ls := linesOf content
  match findIdxF (fun it => p.matchLine it) ls with
  | none => .error (noLineMsg p)
  | some row => .ok (joinLines (spliceDeleteCount ls ((row : Nat) : Int) 1))

/-- Embeds the `patterns.every((pattern, offset) => lines[index + offset].match(pattern))`
check of `deleteBlock`. -/
def blockMatchAt (patterns : List Pattern) (ls : List String) (i : Nat) : Bool :=
  (enumF 0 patterns).all (fun op =>
    match nthF ls (i + op.1) with
    | some l => op.2.matchLine l
    | none => false)

/-- Embeds `Text.deleteBlock` (src/text.ts): delete the first contiguous run
of lines matching the pattern sequence, or throw.  An empty block returns
early without touching the content. -/
def deleteBlock (block : List Pattern) (content : String) : Except String String :=
  if block.isEmpty then .ok content
  else
    let ls := linesOf content
    let maxIndex : Int := (ls.length : Int) - block.length
    match findIdxF (fun il => decide ((il.1 : Int) ≤ maxIndex) && blockMatchAt block ls il.1)
        (enumF 0 ls) with
    | none => .error (noBlockMsg block)
    | some row => .ok (joinLines (spliceDeleteCount ls ((row : Nat) : Int) block.length))

/-- The mutable scan state of `deleteEveryBlock`: the pushed starting rows,
the candidate start `matchRow` (initially `-1`) and the partial-match count
(the source's `matches` variable, named `matchCount` here since `matches` is
reserved in Lean). -/
structure BlockScan where
  rows : List Int
  matchRow : Int
  matchCount : Nat

/-- One iteration of the `lines.forEach` scan of `deleteEveryBlock`
(src/text.ts lines 205-222), for the line `il.2` at index `il.1`. -/
def blockStep (patterns : List Pattern) (len : Nat) (st : BlockScan) (il : Nat × String) :
    BlockScan :=
  let hit :=
    match nthF patterns st.matchCount with
    | some pat => pat.matchLine il.2
    | none => false
  if hit then
    let mr := if st.matchCount == 0 then (il.1 : Int) else st.matchRow
    if st.matchCount + 1 == len then { rows := st.rows ++ [mr], matchRow := mr, matchCount := 0 }
    else { rows := st.rows, matchRow := mr, matchCount := st.matchCount + 1 }
  else if st.matchCount > 0 then
    let hit0 :=
      match nthF patterns 0 with
      | some pat => pat.matchLine il.2
      | none => false
    if hit0 then { st with matchCount := 1 }
    else { st with matchCount := 0 }
  else st

/-- The whole scan of `deleteEveryBlock` over the lines. -/
def blockScan (patterns : List Pattern) (ls : List String) : BlockScan :=
  (enumF 0 ls).foldl (blockStep patterns patterns.length)
    { rows := [], matchRow := -1, matchCount := 0 }

/-- Embeds `Text.deleteEveryBlock` (src/text.ts): scan for block matches,
then splice each out, adjusting starts by the lines already removed.
It never throws, so it returns the new content directly. -/
def deleteEveryBlock (block : List Pattern) (content : String) : String :=
  if block.isEmpty then content
  else
    let ls := linesOf content
    let st := blockScan block ls
    joinLines ((enumF 0 st.rows).foldl
      (fun acc kr => spliceDeleteCount acc (kr.2 - (kr.1 : Int) * block.length) block.length) ls)

/-- Run a fallible text operation the way a `Text` method runs: on success the
content is replaced, on a throw the content is left unchanged (in the source,
`this.content` is assigned only after all throw sites). -/
def runOp (op : String → Except String String) (content : String) : String × Option String :=
  match op content with
  | .ok c => (c, none)
  | .error e => (content, some e)

/-- A Mock Result (src/shell.ts `type Mock`). -/
structure Mock where
  exitCode : Int
  stdout : String
  stderr : String

/-- The mock state of `sh.mock()`: the registered command matchers (each an
anchored pattern with its FIFO queue, in registration order) and the default
queue. -/
structure MockState where
  matchers : List (Pattern × List Mock)
  defaults : List Mock

/-- The exhaustion error message of the mock interceptor. -/
def noMockMsg (command : String) : String := "No mock found for command: " ++ command

/-- The non-zero-exit error message of the mock interceptor. -/
def cmdFailedMsg (command stderrText : String) : String :=
  "Command failed: " ++ command ++ "\n" ++ stderrText

/-- Embeds `matchers.find(([r, m]) => m.length > 0 && r.exec(command))`
followed by `match[1].shift()`: the first matcher (registration order) with a
non-empty queue whose anchored pattern matches the command loses its front
result; every other matcher is untouched. -/
def dispatchMatchers (command : String) :
    List (Pattern × List Mock) → Option (Mock × List (Pattern × List Mock))
  | [] => none
  | (p, q) :: rest =>
    if q.length > 0 && p.anchoredTest command then
      match q with
      | m :: ms => some (m, (p, ms) :: rest)
      | [] => none
    else
      (dispatchMatchers command rest).map (fun r => (r.1, (p, q) :: r.2))

/-- Embeds the `shExec` interceptor installed by `sh.mock()` (src/shell.ts
lines 171-181): dispatch to the first eligible matcher queue, else pop the
default queue, throw on exhaustion, throw on a non-zero exit code, otherwise
return the mock's stdout and stderr.  In the source, `shift()` runs BEFORE
either throw, so the mock state after the call — the second component here —
reflects the pop even when the call fails; on exhaustion (`shift` on the
empty default queue) the state is unchanged. -/
def mockExec (command : String) (st : MockState) :
    Except String (String × String) × MockState :=
  match dispatchMatchers command st.matchers with
  | some (m, ms) =>
    (if m.exitCode ≠ 0 then .error (cmdFailedMsg command m.stderr)
     else .ok (m.stdout, m.stderr),
     { matchers := ms, defaults := st.defaults })
  | none =>
    match st.defaults with
    | [] => (.error (noMockMsg command), st)
    | m :: rest =>
      (if m.exitCode ≠ 0 then .error (cmdFailedMsg command m.stderr)
       else .ok (m.stdout, m.stderr),
       { matchers := st.matchers, defaults := rest })

/-- Insert a copy of `line` immediately before (`off = 0`) or after
(`off = 1`) every line matching `p` — the specified meaning of
`aboveEvery` / `belowEvery`. -/
def flatIns (off : Nat) (p : Pattern) (line : String) : List String → List String
  | [] => []
  | l :: ls =>
    (if p.matchLine l then if off == 0 then [line, l] else [l, line] else [l]) ++
      flatIns off p line ls

/-- Insertion of one element at a (clamped) non-negative position. -/
def insertAtNat (pos : Nat) (line : String) (ls : List String) : List String :=
  ls.take pos ++ line :: ls.drop pos

/-- Delete the length-`len` runs starting at the given ascending,
non-overlapping positions.  Positions are indices into the original list;
`base` is the original index of the first element of `ls`. -/
def delRuns (len : Nat) : List Nat → Nat → List String → List String
  | [], _, ls => ls
  | r :: rs, base, ls => ls.take (r - base) ++ delRuns len rs (r + len) (ls.drop (r - base + len))

/-- The insertion index realised by the `at` locator on a document of `len`
lines: a non-negative `n` inserts before index `n` (clamped to the end); a
negative `n` with `n + len + 1 ≥ 0` inserts at `n + len + 1` (so `-1`
appends); a more negative `n` is passed to `splice` as a negative start and
counts from the end a second time, landing at `max (n + 2*len + 1) 0`. -/
def atIndex (n : Int) (len : Nat) : Nat :=
  if 0 ≤ n then min n.toNat len
  else if 0 ≤ n + len + 1 then (n + len + 1).toNat
  else (max (n + 2 * len + 1) 0).toNat

/-- Options object with only the `at` key. -/
def atOnly (n : Int) : InsertLineOptions := { atPos := some n }

/-- Options object with only the `above` key. -/
def aboveOnly (p : Pattern) : InsertLineOptions := { above := some p }

/-- Options object with only the `below` key. -/
def belowOnly (p : Pattern) : InsertLineOptions := { below := some p }

/-- Options object with only the `aboveEvery` key. -/
def aboveEveryOnly (p : Pattern) : InsertLineOptions := { aboveEvery := some p }

/-- Options object with only the `belowEvery` key. -/
def belowEveryOnly (p : Pattern) : InsertLineOptions := { belowEvery := some p }

/-- Invariant of the `deleteEveryBlock` scan after processing the first `i`
lines: the recorded rows are pairwise at least a block-length apart, each
recorded run lies inside the processed prefix, the partial-match count stays
below the block length, and during a partial match the candidate start is a
valid index with every recorded run ending at or before it. -/
def ScanInv (len i : Nat) (st : BlockScan) : Prop :=
  List.Pairwise (fun a b => a + (len : Int) ≤ b) st.rows ∧
  (∀ r ∈ st.rows, 0 ≤ r ∧ r + (len : Int) ≤ (i : Int)) ∧
  st.matchCount < len ∧
  (0 < st.matchCount →
    0 ≤ st.matchRow ∧ st.matchRow + (st.matchCount : Int) ≤ (i : Int) ∧
    ∀ r ∈ st.rows, r + (len : Int) ≤ st.matchRow)

/-! Helper lemmas. -/

theorem splitNl_ne_nil : ∀ cs : List Char, splitNl cs ≠ []
  | [] => by simp [splitNl]
  | c :: cs => by
    unfold splitNl
    by_cases h : c = '\n'
    · simp [h]
    · simp only [h, if_false]
      cases splitNl cs <;> simp

theorem joinNl_cons_cons (c : Char) (l : List Char) (ls : List (List Char)) :
    joinNl ((c :: l) :: ls) = c :: joinNl (l :: ls) := by
  cases ls <;> simp [joinNl]

theorem joinNl_nil_cons (x : List Char) (xs : List (List Char)) :
    joinNl ([] :: x :: xs) = '\n' :: joinNl (x :: xs) := by
  simp [joinNl]

theorem joinNl_splitNl : ∀ cs : List Char, joinNl (splitNl cs) = cs := by
  intro cs
  induction cs with
  | nil => rfl
  | cons c cs ih =>
    unfold splitNl
    by_cases h : c = '\n'
    · simp only [h, if_true, if_pos rfl]
      obtain ⟨x, xs, hx⟩ : ∃ x xs, splitNl cs = x :: xs := by
        cases hcs : splitNl cs with
        | nil => exact absurd hcs (splitNl_ne_nil cs)
        | cons x xs => exact ⟨x, xs, rfl⟩
      rw [hx, joinNl_nil_cons, ← hx, ih]
    · simp only [h, if_false]
      obtain ⟨x, xs, hx⟩ : ∃ x xs, splitNl cs = x :: xs := by
        cases hcs : splitNl cs with
        | nil => exact absurd hcs (splitNl_ne_nil cs)
        | cons x xs => exact ⟨x, xs, rfl⟩
      rw [hx, joinNl_cons_cons, ← hx, ih]

theorem joinLines_linesOf (s : String) : joinLines (linesOf s) = s := by
  unfold joinLines linesOf
  rw [List.map_map]
  have h1 : String.data ∘ String.mk = (fun l : List Char => l) := rfl
  rw [h1, List.map_id', joinNl_splitNl]

theorem findIdxF_eq_none {α : Type} {p : α → Bool} :
    ∀ {l : List α}, (∀ a ∈ l, p a = false) → findIdxF p l = none := by
  intro l
  induction l with
  | nil => intro _; rfl
  | cons a as ih =>
    intro h
    unfold findIdxF
    rw [h a (by simp), if_neg (by simp)]
    rw [ih (fun b hb => h b (by simp [hb]))]
    rfl

/-! Claim C1.  The spec (and the repository's own test
`should correctly handle repeated first line of block (issue #1)`,
tests/text.spec.ts) expects `deleteEveryBlock(["", "three"])` on
`"one\ntwo\nthree\n"` to leave `"one\n"`: when a line breaks a partial match
but itself matches the first pattern, the run is meant to restart AT THAT
LINE.  The code (src/text.ts lines 215-221) resets `matches = 1` without
updating `matchRow`, so the completed match is recorded at the stale,
abandoned start and the wrong lines are deleted. -/

/-- C1: evaluation of the code at the spec's own example: the scan keeps the
stale `matchRow` of the abandoned candidate, so `deleteEveryBlock(["", "three"])`
on `"one\ntwo\nthree\n"` deletes the first two lines and leaves `"three\n"`,
not the specified `"one\n"`. -/
theorem deleteEveryBlock_restart_stale_matchRow :
    deleteEveryBlock [Pattern.lit "", Pattern.lit "three"] "one\ntwo\nthree\n" = "three\n" ∧
    deleteEveryBlock [Pattern.lit "", Pattern.lit "three"] "one\ntwo\nthree\n" ≠ "one\n" := by
  constructor
  · rfl
  · decide

/-! Claim C4: `at` locator semantics. -/

/-- C4 counterexample: the claim says a negative index whose magnitude
exceeds the line count inserts at position 0, but `at:-5` on the three lines
`one,two,three` computes splice start `-5+3+1 = -1`, which JavaScript
`splice` interprets as `3-1 = 2`: the line is inserted at index 2, not 0. -/
theorem insertLine_at_neg5_not_front :
    insertLine "four" (atOnly (-5)) "one\ntwo\nthree" = .ok "one\ntwo\nfour\nthree" ∧
    insertLine "four" (atOnly (-5)) "one\ntwo\nthree" ≠ .ok "four\none\ntwo\nthree" := by
  refine ⟨rfl, fun h => ?_⟩
  rw [show insertLine "four" (atOnly (-5)) "one\ntwo\nthree" = .ok "one\ntwo\nfour\nthree"
    from rfl] at h
  exact absurd (Except.ok.inj h) (by decide)

theorem usedKeys_atOnly_le_one (n : Int) : (usedKeys (atOnly n)).length ≤ 1 := by
  unfold usedKeys atOnly atTruthy optTruthy
  by_cases h : n = 0 <;> simp [h]

theorem spliceStart_at (n : Int) (len : Nat) :
    spliceStart (if 0 ≤ n then n else n + len + 1) len = atIndex n len := by
  unfold spliceStart atIndex
  by_cases h0 : 0 ≤ n
  · rw [if_pos h0, if_neg (by omega), if_pos h0]
  · rw [if_neg h0]
    by_cases h1 : 0 ≤ n + len + 1
    · rw [if_neg (by omega), if_neg h0, if_pos h1]
      have : (n + len + 1).toNat ≤ len := by omega
      omega
    · rw [if_pos (by omega), if_neg h0, if_neg h1]
      congr 1
      omega

/-- C4 (amended): the six concrete examples of the spec all hold, and in
general `insertLine` with `at: n` inserts at the position `atIndex n len`:
non-negative indices insert before that index (clamped to append at the end),
negative indices with `n + len + 1 ≥ 0` insert at `n + len + 1` (`-1`
appends), and still-negative splice starts count from the end a second time,
landing at `max (n + 2*len + 1) 0` — position 0 only when `n ≤ -(2*len+1)`
or `n = -(len+1)`, not whenever the magnitude exceeds the line count. -/
theorem insertLine_at_semantics :
    insertLine "four" (atOnly 0) "one\ntwo\nthree" = .ok "four\none\ntwo\nthree" ∧
    insertLine "four" (atOnly 1) "one\ntwo\nthree" = .ok "one\nfour\ntwo\nthree" ∧
    insertLine "four" (atOnly 10) "one\ntwo\nthree" = .ok "one\ntwo\nthree\nfour" ∧
    insertLine "four" (atOnly (-1)) "one\ntwo\nthree" = .ok "one\ntwo\nthree\nfour" ∧
    insertLine "four" (atOnly (-2)) "one\ntwo\nthree" = .ok "one\ntwo\nfour\nthree" ∧
    insertLine "four" (atOnly (-10)) "one\ntwo\nthree" = .ok "four\none\ntwo\nthree" ∧
    ∀ (content line : String) (n : Int),
      insertLine line (atOnly n) content =
        .ok (joinLines (insertAtNat (atIndex n (linesOf content).length) line (linesOf content))) := by
  refine ⟨rfl, rfl, rfl, rfl, rfl, rfl, fun content line n => ?_⟩
  unfold insertLine
  rw [if_neg (by have := usedKeys_atOnly_le_one n; omega)]
  show Except.ok (joinLines (spliceInsert (linesOf content) _ line)) = _
  unfold spliceInsert insertAtNat
  rw [spliceStart_at]

/-! Claim C8: locator misuse errors. -/

/-- C8: `insertLine` fails with the ambiguous-locator error whenever more
than one locator key is truthy, and with the missing-locator error when no
locator key is set; in both cases the content is returned unchanged (the
source assigns `this.content` only after all throw sites). -/
theorem insertLine_locator_misuse (line content : String) (w : InsertLineOptions) :
    ((usedKeys w).length > 1 →
      runOp (insertLine line w) content = (content, some (ambiguousMsg w))) ∧
    (w.atPos = none → w.above = none → w.aboveEvery = none → w.below = none →
      w.belowEvery = none →
      runOp (insertLine line w) content = (content, some locatorKeysMsg)) := by
  constructor
  · intro h
    unfold runOp insertLine
    rw [if_pos h]
  · intro h1 h2 h3 h4 h5
    unfold runOp insertLine
    rw [if_neg (by simp [usedKeys, h1, h2, h3, h4, h5, atTruthy, optTruthy])]
    rw [h1]
    simp only [h2, h3, h4, h5, optTruthy]
    rfl

/-- C8 witness: at a concrete ambiguous call (`at:1` with `above`) and a
concrete empty options object, `insertLine` errors and leaves the content. -/
theorem insertLine_locator_misuse_witness :
    runOp (insertLine "x" { atPos := some 1, above := some (Pattern.lit "a") }) "one\ntwo"
      = ("one\ntwo", some (ambiguousMsg { atPos := some 1, above := some (Pattern.lit "a") })) ∧
    runOp (insertLine "x" {}) "one\ntwo" = ("one\ntwo", some locatorKeysMsg) := by
  constructor
  · exact (insertLine_locator_misuse "x" "one\ntwo"
      { atPos := some 1, above := some (Pattern.lit "a") }).1 (by decide)
  · exact (insertLine_locator_misuse "x" "one\ntwo" {}).2 rfl rfl rfl rfl rfl

/-! Claim C10: `at: 0` is falsy, so it does not count toward the ambiguity
check, and the `at` branch still runs (the code tests `at !== undefined`). -/

/-- C10: with `at: 0` set (and at most one truthy pattern locator), the
ambiguous-locator error is not raised — `0` is falsy in the truthiness
filter — and the line is inserted at index 0, the pattern locator ignored. -/
theorem insertLine_at_zero_falsy (content line : String) (w : InsertLineOptions)
    (hat : w.atPos = some 0) (hk : (usedKeys w).length ≤ 1) :
    insertLine line w content = .ok (joinLines (line :: linesOf content)) := by
  unfold insertLine
  rw [if_neg (by omega), hat]
  show Except.ok (joinLines (spliceInsert (linesOf content) _ line)) = _
  congr 1
  unfold spliceInsert spliceStart
  norm_num

/-- C10 witness: `insertLine("zero", { at: 0, above: "one" })` on
`"one\ntwo"` raises no error and prepends the line at index 0. -/
theorem insertLine_at_zero_falsy_witness :
    insertLine "zero" { atPos := some 0, above := some (Pattern.lit "one") } "one\ntwo"
      = .ok (joinLines ("zero" :: linesOf "one\ntwo")) :=
  insertLine_at_zero_falsy "one\ntwo" "zero" _ rfl (by decide)

/-! Claim C9: not-found failures are atomic. -/

/-- C9: when no line (or no block) matches, `deleteLine`, `deleteBlock` and
`insertLine` with an `above`/`below` locator all throw their no-match error
and return the content exactly unchanged. -/
theorem notFound_leaves_content (content line : String) (p : Pattern) (block : List Pattern) :
    ((∀ l ∈ linesOf content, p.matchLine l = false) →
      runOp (deleteLine p) content = (content, some (noLineMsg p))) ∧
    (block ≠ [] →
      (∀ i, blockMatchAt block (linesOf content) i = false) →
      runOp (deleteBlock block) content = (content, some (noBlockMsg block))) ∧
    (p.truthy = true →
      (∀ l ∈ linesOf content, p.matchLine l = false) →
      runOp (insertLine line (aboveOnly p)) content = (content, some (noLineMsg p))) ∧
    (p.truthy = true →
      (∀ l ∈ linesOf content, p.matchLine l = false) →
      runOp (insertLine line (belowOnly p)) content = (content, some (noLineMsg p))) := by
  refine ⟨fun h => ?_, fun hb h => ?_, fun ht h => ?_, fun ht h => ?_⟩
  · have hf : findIdxF (fun it => p.matchLine it) (linesOf content) = none :=
      findIdxF_eq_none (by simpa using h)
    simp [runOp, deleteLine, hf]
  · have hf : findIdxF
        (fun il : Nat × String =>
          decide ((il.1 : Int) ≤ (linesOf content).length - block.length) &&
            blockMatchAt block (linesOf content) il.1)
        (enumF 0 (linesOf content)) = none :=
      findIdxF_eq_none (fun il _ => by rw [h il.1, Bool.and_false])
    simp only [runOp, deleteBlock]
    rw [if_neg (by cases block <;> simp_all)]
    simp [hf]
  · have hf : findIdxF (fun it => p.matchLine it) (linesOf content) = none :=
      findIdxF_eq_none (by simpa using h)
    simp only [runOp, insertLine]
    rw [if_neg (by simp [usedKeys, aboveOnly, atTruthy, optTruthy, ht])]
    simp [aboveOnly, optTruthy, ht, hf]
  · have hf : findIdxF (fun it => p.matchLine it) (linesOf content) = none :=
      findIdxF_eq_none (by simpa using h)
    simp only [runOp, insertLine]
    rw [if_neg (by simp [usedKeys, belowOnly, atTruthy, optTruthy, ht])]
    simp [belowOnly, optTruthy, ht, hf]

/-- C9 witness: deleting the absent line or block `"zap"` from `"one\ntwo"`,
or inserting above/below it, errors and leaves the content unchanged. -/
theorem notFound_leaves_content_witness :
    runOp (deleteLine (Pattern.lit "zap")) "one\ntwo" = ("one\ntwo", some (noLineMsg (Pattern.lit "zap"))) ∧
    runOp (deleteBlock [Pattern.lit "zap"]) "one\ntwo" = ("one\ntwo", some (noBlockMsg [Pattern.lit "zap"])) ∧
    runOp (insertLine "x" (aboveOnly (Pattern.lit "zap"))) "one\ntwo"
      = ("one\ntwo", some (noLineMsg (Pattern.lit "zap"))) ∧
    runOp (insertLine "x" (belowOnly (Pattern.lit "zap"))) "one\ntwo"
      = ("one\ntwo", some (noLineMsg (Pattern.lit "zap"))) := by
  have h := notFound_leaves_content "one\ntwo" "x" (Pattern.lit "zap") [Pattern.lit "zap"]
  have hblock : ∀ i, blockMatchAt [Pattern.lit "zap"] (linesOf "one\ntwo") i = false := by
    intro i
    match i with
    | 0 => decide
    | 1 => decide
    | n + 2 => simp [blockMatchAt, enumF, nthF, linesOf, splitNl]
  exact ⟨h.1 (by decide), h.2.1 (by simp) hblock, h.2.2.1 (by decide) (by decide),
    h.2.2.2 (by decide) (by decide)⟩

/-! Claim C3: `aboveEvery` / `belowEvery`. -/

theorem spliceInsert_append (pre rest : List String) (d : Nat) (line : String)
    (hd : d ≤ rest.length) :
    spliceInsert (pre ++ rest) ((pre.length + d : Nat) : Int) line =
      pre ++ (rest.take d ++ line :: rest.drop d) := by
  have hs : spliceStart ((pre.length + d : Nat) : Int) (pre ++ rest).length = pre.length + d := by
    unfold spliceStart
    rw [if_neg (by omega), List.length_append]
    omega
  simp only [spliceInsert]
  rw [hs, List.take_append_eq_append_take, List.take_of_length_le (by omega),
    Nat.add_sub_cancel_left,
    List.drop_append_eq_append_drop, List.drop_of_length_le (by omega),
    Nat.add_sub_cancel_left]
  simp

theorem everyFold (p : Pattern) (line : String) (off : Nat) (hoff : off = 0 ∨ off = 1) :
    ∀ (ls pre : List String) (c k : Nat), pre.length = c + k →
      (enumF k (((enumF c ls).filter (fun il => p.matchLine il.2)).map (fun il => il.1))).foldl
        (fun acc kr => spliceInsert acc ((kr.2 + off + kr.1 : Nat) : Int) line) (pre ++ ls)
      = pre ++ flatIns off p line ls := by
  intro ls
  induction ls with
  | nil => intro pre c k h; simp [enumF, flatIns]
  | cons l ls ih =>
    intro pre c k h
    show (enumF k ((((c, l) :: enumF (c + 1) ls).filter
        (fun il => p.matchLine il.2)).map (fun il => il.1))).foldl _ _ = _
    by_cases hm : p.matchLine l = true
    · rw [List.filter_cons_of_pos (by simpa using hm), List.map_cons]
      show ((k, c) :: enumF (k + 1) _).foldl _ _ = _
      rw [List.foldl_cons]
      have harg : (c + off + k : Nat) = pre.length + off := by omega
      rw [harg, spliceInsert_append pre (l :: ls) off line (by rcases hoff with h | h <;> simp [h])]
      rcases hoff with h0 | h1
      · subst h0
        have hpre : pre ++ ((l :: ls).take 0 ++ line :: (l :: ls).drop 0)
            = (pre ++ [line, l]) ++ ls := by simp
        rw [hpre, ih (pre ++ [line, l]) (c + 1) (k + 1) (by simp [h]; try omega)]
        simp [flatIns, hm]
      · subst h1
        have hpre : pre ++ ((l :: ls).take 1 ++ line :: (l :: ls).drop 1)
            = (pre ++ [l, line]) ++ ls := by simp
        rw [hpre, ih (pre ++ [l, line]) (c + 1) (k + 1) (by simp [h]; try omega)]
        simp [flatIns, hm]
    · rw [List.filter_cons_of_neg (by simpa using hm)]
      have hpre : pre ++ l :: ls = (pre ++ [l]) ++ ls := by simp
      rw [hpre, ih (pre ++ [l]) (c + 1) k (by simp [h]; omega)]
      simp [flatIns, hm]

theorem flatIns_eq_self (off : Nat) (p : Pattern) (line : String) :
    ∀ ls : List String, (∀ l ∈ ls, p.matchLine l = false) → flatIns off p line ls = ls := by
  intro ls
  induction ls with
  | nil => intro _; rfl
  | cons l ls ih =>
    intro h
    rw [show flatIns off p line (l :: ls)
        = (if p.matchLine l then if off == 0 then [line, l] else [l, line] else [l])
          ++ flatIns off p line ls from rfl]
    rw [h l (by simp), ih (fun x hx => h x (by simp [hx]))]
    simp

/-- C3: `insertLine` with `aboveEvery` (resp. `belowEvery`) inserts one copy
of the line immediately before (resp. after) every matching line — the
index-shifting splice loop computes exactly the one-pass `flatIns`
transformation — the spec's growth example holds, and when zero lines match,
the content is returned unchanged with no error. -/
theorem insertLine_every (p : Pattern) (line content : String) :
    (insertLine "zero" (aboveEveryOnly (Pattern.lit "one")) "one\n\none"
      = .ok "zero\none\n\nzero\none") ∧
    (p.truthy = true →
      insertLine line (aboveEveryOnly p) content
        = .ok (joinLines (flatIns 0 p line (linesOf content)))) ∧
    (p.truthy = true →
      insertLine line (belowEveryOnly p) content
        = .ok (joinLines (flatIns 1 p line (linesOf content)))) ∧
    (p.truthy = true → (∀ l ∈ linesOf content, p.matchLine l = false) →
      insertLine line (aboveEveryOnly p) content = .ok content) ∧
    (p.truthy = true → (∀ l ∈ linesOf content, p.matchLine l = false) →
      insertLine line (belowEveryOnly p) content = .ok content) := by
  have habove : ∀ (q : Pattern) (li co : String), q.truthy = true →
      insertLine li (aboveEveryOnly q) co
        = .ok (joinLines (flatIns 0 q li (linesOf co))) := by
    intro q li co ht
    unfold insertLine
    rw [if_neg (by simp [usedKeys, aboveEveryOnly, atTruthy, optTruthy, ht])]
    simp only [aboveEveryOnly, optTruthy, ht]
    have := everyFold q li 0 (Or.inl rfl) (linesOf co) [] 0 0 rfl
    simp only [List.nil_append] at this
    push_cast at this
    simp only [add_zero] at this
    simp [this]
  have hbelow : ∀ (q : Pattern) (li co : String), q.truthy = true →
      insertLine li (belowEveryOnly q) co
        = .ok (joinLines (flatIns 1 q li (linesOf co))) := by
    intro q li co ht
    unfold insertLine
    rw [if_neg (by simp [usedKeys, belowEveryOnly, atTruthy, optTruthy, ht])]
    simp only [belowEveryOnly, optTruthy, ht]
    have := everyFold q li 1 (Or.inr rfl) (linesOf co) [] 0 0 rfl
    simp only [List.nil_append] at this
    push_cast at this
    simp [this]
  refine ⟨rfl, habove p line content, hbelow p line content, fun ht hn => ?_, fun ht hn => ?_⟩
  · rw [habove p line content ht, flatIns_eq_self 0 p line _ hn, joinLines_linesOf]
  · rw [hbelow p line content ht, flatIns_eq_self 1 p line _ hn, joinLines_linesOf]

/-- C3 witness: the growth example realises the `flatIns` description at a
concrete input, and a pattern matching no line leaves `"one\ntwo"` unchanged. -/
theorem insertLine_every_witness :
    (Pattern.lit "one").truthy = true ∧
    insertLine "zero" (aboveEveryOnly (Pattern.lit "one")) "one\n\none"
      = .ok (joinLines (flatIns 0 (Pattern.lit "one") "zero" (linesOf "one\n\none"))) ∧
    insertLine "x" (belowEveryOnly (Pattern.lit "zap")) "one\ntwo" = .ok "one\ntwo" :=
  ⟨by decide, (insertLine_every (Pattern.lit "one") "zero" "one\n\none").2.1 (by decide),
    (insertLine_every (Pattern.lit "zap") "x" "one\ntwo").2.2.2.2 (by decide) (by decide)⟩

/-! Claims C2, C6, C7: the mock interceptor. -/

theorem string_data_append (s t : String) : (s ++ t).data = s.data ++ t.data := by
  cases s; cases t; rfl

theorem cmdFailed_ne_noMock (a b c : String) : cmdFailedMsg a b ≠ noMockMsg c := by
  intro h
  have h2 : (cmdFailedMsg a b).data.head? = (noMockMsg c).data.head? := by rw [h]
  rw [show cmdFailedMsg a b = "Command failed: " ++ a ++ "\n" ++ b from rfl,
    show noMockMsg c = "No mock found for command: " ++ c from rfl] at h2
  rw [string_data_append, string_data_append, string_data_append, string_data_append] at h2
  rw [show "Command failed: ".data = 'C' :: "ommand failed: ".data by decide,
    show "No mock found for command: ".data = 'N' :: "o mock found for command: ".data by decide]
    at h2
  simp only [List.cons_append, List.head?_cons] at h2
  exact absurd h2 (by decide)

theorem dispatchMatchers_eq_some (cmd : String) :
    ∀ (ms : List (Pattern × List Mock)) (i : Nat) (p : Pattern) (m : Mock) (rest : List Mock),
      nthF ms i = some (p, m :: rest) →
      p.anchoredTest cmd = true →
      (∀ j pq, j < i → nthF ms j = some pq → (pq.2.length > 0 && pq.1.anchoredTest cmd) = false) →
      dispatchMatchers cmd ms = some (m, listSetF ms i (p, rest)) := by
  intro ms
  induction ms with
  | nil => intro i p m rest h _ _; simp [nthF] at h
  | cons hd tl ih =>
    intro i p m rest hnth hp hfirst
    cases i with
    | zero =>
      simp only [nthF] at hnth
      obtain rfl : hd = (p, m :: rest) := Option.some.inj hnth
      unfold dispatchMatchers
      rw [if_pos (by simp [hp])]
      rfl
    | succ j =>
      have h0 : (hd.2.length > 0 && hd.1.anchoredTest cmd) = false :=
        hfirst 0 hd (Nat.succ_pos j) (by simp [nthF])
      obtain ⟨p0, q0⟩ := hd
      unfold dispatchMatchers
      rw [if_neg (by simp_all)]
      rw [ih j p m rest (by simpa [nthF] using hnth) hp
        (fun j' pq hj' hn => hfirst (j' + 1) pq (by omega) (by simpa [nthF] using hn))]
      rfl

theorem dispatchMatchers_eq_none_iff (cmd : String) :
    ∀ ms : List (Pattern × List Mock),
      dispatchMatchers cmd ms = none ↔
        ∀ pq ∈ ms, (pq.2.length > 0 && pq.1.anchoredTest cmd) = false := by
  intro ms
  induction ms with
  | nil => simp [dispatchMatchers]
  | cons hd tl ih =>
    obtain ⟨p0, q0⟩ := hd
    unfold dispatchMatchers
    cases hb : (q0.length > 0 && p0.anchoredTest cmd) with
    | true =>
      rw [if_pos rfl]
      cases q0 with
      | nil => simp at hb
      | cons m ms' =>
        constructor
        · intro h; exact absurd h (by simp)
        · intro h
          rw [Bool.and_eq_true] at hb
          exact absurd (h (p0, m :: ms') (by simp)) (by simp [hb.2])
    | false =>
      rw [if_neg (by simp [hb])]
      rw [Option.map_eq_none', ih]
      constructor
      · intro h pq hpq
        rcases List.mem_cons.mp hpq with rfl | h1
        · exact hb
        · exact h pq h1
      · intro h pq hpq
        exact h pq (List.mem_cons_of_mem _ hpq)

theorem mockExec_eq_of_dispatch_some (st : MockState) (cmd : String) (m : Mock)
    (ms : List (Pattern × List Mock))
    (hd : dispatchMatchers cmd st.matchers = some (m, ms)) :
    mockExec cmd st =
      (if m.exitCode ≠ 0 then .error (cmdFailedMsg cmd m.stderr)
       else .ok (m.stdout, m.stderr),
       { matchers := ms, defaults := st.defaults }) := by
  unfold mockExec
  rw [hd]

theorem mockExec_eq_of_dispatch_none (st : MockState) (cmd : String)
    (hd : dispatchMatchers cmd st.matchers = none) :
    mockExec cmd st =
      (match st.defaults with
        | [] => (.error (noMockMsg cmd), st)
        | m :: rest =>
          (if m.exitCode ≠ 0 then .error (cmdFailedMsg cmd m.stderr)
           else .ok (m.stdout, m.stderr),
           { matchers := st.matchers, defaults := rest })) := by
  unfold mockExec
  rw [hd]

/-- C2: while mocked, each call selects the FIRST registered matcher (in
registration order) whose anchored pattern matches the command and whose
queue is non-empty, and removes exactly the front element of that queue —
whether or not the popped result's exit code is zero, since the source
shifts the queue before the exit-code check — leaving every other matcher
queue and the default queue untouched; when no matcher is eligible, the
front of the default queue is consumed instead.  Repeated calls therefore
drain each queue front-to-back in the order its results were programmed,
failing calls included. -/
theorem mock_dispatch (st : MockState) (cmd : String) :
    (∀ (i : Nat) (p : Pattern) (m : Mock) (ms : List Mock),
      nthF st.matchers i = some (p, m :: ms) →
      p.anchoredTest cmd = true →
      (∀ j pq, j < i → nthF st.matchers j = some pq →
        (pq.2.length > 0 && pq.1.anchoredTest cmd) = false) →
      mockExec cmd st =
        (if m.exitCode ≠ 0 then .error (cmdFailedMsg cmd m.stderr)
         else .ok (m.stdout, m.stderr),
         { matchers := listSetF st.matchers i (p, ms), defaults := st.defaults })) ∧
    ((∀ pq ∈ st.matchers, (pq.2.length > 0 && pq.1.anchoredTest cmd) = false) →
      ∀ (m : Mock) (ms : List Mock), st.defaults = m :: ms →
      mockExec cmd st =
        (if m.exitCode ≠ 0 then .error (cmdFailedMsg cmd m.stderr)
         else .ok (m.stdout, m.stderr),
         { matchers := st.matchers, defaults := ms })) := by
  constructor
  · intro i p m ms hn hp hf
    unfold mockExec
    rw [dispatchMatchers_eq_some cmd st.matchers i p m ms hn hp hf]
  · intro hall m ms hdef
    unfold mockExec
    rw [(dispatchMatchers_eq_none_iff cmd st.matchers).mpr hall, hdef]

/-- C2 witness: with a first matcher whose queue is empty, the second
matching matcher's queue is popped (FIFO) and everything else kept; with no
matching matcher, the default queue's front is popped; and a failing
front result (non-zero exit) is popped from its queue all the same. -/
theorem mock_dispatch_witness :
    mockExec "a"
      { matchers := [(Pattern.lit "a", []), (Pattern.lit "a", [⟨0, "s1", "e1"⟩, ⟨0, "s2", "e2"⟩])],
        defaults := [⟨0, "d1", ""⟩] }
      = (.ok ("s1", "e1"),
        { matchers := [(Pattern.lit "a", []), (Pattern.lit "a", [⟨0, "s2", "e2"⟩])],
          defaults := [⟨0, "d1", ""⟩] }) ∧
    mockExec "a"
      { matchers := [(Pattern.lit "b", [⟨0, "s1", ""⟩])],
        defaults := [⟨0, "d1", ""⟩, ⟨0, "d2", ""⟩] }
      = (.ok ("d1", ""),
        { matchers := [(Pattern.lit "b", [⟨0, "s1", ""⟩])], defaults := [⟨0, "d2", ""⟩] }) ∧
    mockExec "a"
      { matchers := [(Pattern.lit "a", [⟨1, "", "err"⟩, ⟨0, "ok", ""⟩])], defaults := [] }
      = (.error (cmdFailedMsg "a" "err"),
        { matchers := [(Pattern.lit "a", [⟨0, "ok", ""⟩])], defaults := [] }) := by
  refine ⟨?_, ?_, ?_⟩
  · have h := (mock_dispatch
      ⟨[(Pattern.lit "a", []), (Pattern.lit "a", [⟨0, "s1", "e1"⟩, ⟨0, "s2", "e2"⟩])],
        [⟨0, "d1", ""⟩]⟩ "a").1 1 (Pattern.lit "a") ⟨0, "s1", "e1"⟩ [⟨0, "s2", "e2"⟩]
      rfl rfl ?_
    · rw [h]; rfl
    · intro j pq hj hn
      obtain rfl : j = 0 := by omega
      simp only [nthF] at hn
      obtain rfl := Option.some.inj hn
      rfl
  · have h := (mock_dispatch
      ⟨[(Pattern.lit "b", [⟨0, "s1", ""⟩])], [⟨0, "d1", ""⟩, ⟨0, "d2", ""⟩]⟩ "a").2
      ?_ ⟨0, "d1", ""⟩ [⟨0, "d2", ""⟩] rfl
    · rw [h]; rfl
    · intro pq hpq
      rw [List.mem_singleton] at hpq
      subst hpq
      rfl
  · have h := (mock_dispatch
      ⟨[(Pattern.lit "a", [⟨1, "", "err"⟩, ⟨0, "ok", ""⟩])], []⟩ "a").1 0
      (Pattern.lit "a") ⟨1, "", "err"⟩ [⟨0, "ok", ""⟩] rfl rfl
      (fun j pq hj _ => absurd hj (by omega))
    rw [h]
    rfl

/-- C6: whenever the Mock Result popped for a call (from a matcher queue or
from the default queue) has a non-zero exit code, the call fails with the
`Command failed:` error carrying the command and the result's stderr text. -/
theorem mock_nonzero_exit (st : MockState) (cmd : String) (m : Mock) :
    (∀ ms, dispatchMatchers cmd st.matchers = some (m, ms) → m.exitCode ≠ 0 →
      (mockExec cmd st).1 = .error (cmdFailedMsg cmd m.stderr)) ∧
    (dispatchMatchers cmd st.matchers = none →
      ∀ rest, st.defaults = m :: rest → m.exitCode ≠ 0 →
      (mockExec cmd st).1 = .error (cmdFailedMsg cmd m.stderr)) := by
  constructor
  · intro ms hd hm
    rw [mockExec_eq_of_dispatch_some st cmd m ms hd]
    exact if_pos hm
  · intro hd rest hdef hm
    rw [mockExec_eq_of_dispatch_none st cmd hd, hdef]
    exact if_pos hm

/-- C6 witness: a matcher-queue mock with exit code 2 and a default-queue
mock with exit code 1 both fail with the command and their stderr text. -/
theorem mock_nonzero_exit_witness :
    (mockExec "c" { matchers := [(Pattern.lit "c", [⟨2, "", "bad"⟩])], defaults := [] }).1
      = .error (cmdFailedMsg "c" "bad") ∧
    (mockExec "x" { matchers := [], defaults := [⟨1, "", "boom"⟩] }).1
      = .error (cmdFailedMsg "x" "boom") := by
  constructor
  · exact (mock_nonzero_exit ⟨[(Pattern.lit "c", [⟨2, "", "bad"⟩])], []⟩ "c"
      ⟨2, "", "bad"⟩).1 [(Pattern.lit "c", [])] rfl (by decide)
  · exact (mock_nonzero_exit ⟨[], [⟨1, "", "boom"⟩]⟩ "x" ⟨1, "", "boom"⟩).2 rfl []
      rfl (by decide)

/-- C7: a mocked call fails with exactly the exhaustion error
`No mock found for command: <command>` if and only if no registered matcher
has both a matching anchored pattern and a non-empty queue, and the default
queue is empty. -/
theorem mock_exhaustion (st : MockState) (cmd : String) :
    (mockExec cmd st).1 = .error (noMockMsg cmd) ↔
      ((∀ pq ∈ st.matchers, (pq.2.length > 0 && pq.1.anchoredTest cmd) = false) ∧
        st.defaults = []) := by
  constructor
  · intro h
    cases hd : dispatchMatchers cmd st.matchers with
    | some pr =>
      obtain ⟨m, ms⟩ := pr
      rw [mockExec_eq_of_dispatch_some st cmd m ms hd] at h
      replace h : (if m.exitCode ≠ 0 then Except.error (cmdFailedMsg cmd m.stderr)
            else Except.ok (m.stdout, m.stderr))
          = Except.error (noMockMsg cmd) := h
      by_cases hm : m.exitCode ≠ 0
      · rw [if_pos hm] at h
        exact absurd (Except.error.inj h) (cmdFailed_ne_noMock cmd m.stderr cmd)
      · rw [if_neg hm] at h
        exact Except.noConfusion h
    | none =>
      have hall := (dispatchMatchers_eq_none_iff cmd st.matchers).mp hd
      cases hdef : st.defaults with
      | nil => exact ⟨hall, rfl⟩
      | cons m rest =>
        rw [mockExec_eq_of_dispatch_none st cmd hd, hdef] at h
        replace h : (if m.exitCode ≠ 0 then Except.error (cmdFailedMsg cmd m.stderr)
            else Except.ok (m.stdout, m.stderr))
            = Except.error (noMockMsg cmd) := h
        by_cases hm : m.exitCode ≠ 0
        · rw [if_pos hm] at h
          exact absurd (Except.error.inj h) (cmdFailed_ne_noMock cmd m.stderr cmd)
        · rw [if_neg hm] at h
          exact Except.noConfusion h
  · rintro ⟨hall, hdef⟩
    rw [mockExec_eq_of_dispatch_none st cmd
      ((dispatchMatchers_eq_none_iff cmd st.matchers).mpr hall), hdef]

/-- C7 witness: with no matchers and an empty default queue, the call for
`"x"` fails with the exhaustion error naming `"x"`. -/
theorem mock_exhaustion_witness :
    (mockExec "x" { matchers := [], defaults := [] }).1 = .error (noMockMsg "x") :=
  (mock_exhaustion ⟨[], []⟩ "x").mpr ⟨by simp, rfl⟩

/-! Claim C5: `deleteEveryBlock` non-overlap and deferred deletion. -/

theorem scanInv_mk (len i : Nat) (rows : List Int) (mrow : Int) (mc : Nat)
    (h1 : List.Pairwise (fun a b => a + (len : Int) ≤ b) rows)
    (h2 : ∀ r ∈ rows, 0 ≤ r ∧ r + (len : Int) ≤ (i : Int))
    (h3 : mc < len)
    (h4 : 0 < mc → 0 ≤ mrow ∧ mrow + (mc : Int) ≤ (i : Int) ∧
      ∀ r ∈ rows, r + (len : Int) ≤ mrow) :
    ScanInv len i ⟨rows, mrow, mc⟩ := ⟨h1, h2, h3, h4⟩

theorem blockStep_inv (patterns : List Pattern) (len i : Nat) (hpos : 0 < len)
    (st : BlockScan) (l : String) (h : ScanInv len i st) :
    ScanInv len (i + 1) (blockStep patterns len st (i, l)) := by
  obtain ⟨rows, mrow, mc⟩ := st
  obtain ⟨hP, hB, hC, hD⟩ := h
  dsimp only at hP hB hC hD
  simp only [blockStep]
  cases hhit : (match nthF patterns mc with | some pat => pat.matchLine l | none => false) with
  | true =>
    rw [if_pos rfl]
    cases mc with
    | zero =>
      show ScanInv len (i + 1)
        (if (0 + 1 == len) = true then ⟨rows ++ [(i : Int)], (i : Int), 0⟩
         else ⟨rows, (i : Int), 0 + 1⟩)
      by_cases hml : 0 + 1 = len
      · rw [if_pos (by simp [hml])]
        refine scanInv_mk len (i + 1) _ _ _ ?_ ?_ hpos (fun hmc => absurd hmc (by omega))
        · rw [List.pairwise_append]
          refine ⟨hP, by simp, fun a ha b hb => ?_⟩
          rw [List.mem_singleton] at hb
          subst hb
          exact (hB a ha).2
        · intro r hr
          rcases List.mem_append.mp hr with h1 | h1
          · have := hB r h1
            constructor
            · exact this.1
            · push_cast at this ⊢
              omega
          · rw [List.mem_singleton] at h1
            subst h1
            constructor
            · positivity
            · push_cast
              omega
      · rw [if_neg (by simp [hml])]
        refine scanInv_mk len (i + 1) _ _ _ hP ?_ (by omega)
          (fun _ => ⟨by positivity, by push_cast; omega, ?_⟩)
        · intro r hr
          have := hB r hr
          constructor
          · exact this.1
          · push_cast at this ⊢
            omega
        · intro r hr
          exact (hB r hr).2
    | succ m =>
      show ScanInv len (i + 1)
        (if (m + 1 + 1 == len) = true then ⟨rows ++ [mrow], mrow, 0⟩
         else ⟨rows, mrow, m + 1 + 1⟩)
      obtain ⟨hD1, hD2, hD3⟩ := hD (Nat.succ_pos m)
      by_cases hml : m + 1 + 1 = len
      · rw [if_pos (by simp [hml])]
        refine scanInv_mk len (i + 1) _ _ _ ?_ ?_ hpos (fun hmc => absurd hmc (by omega))
        · rw [List.pairwise_append]
          refine ⟨hP, by simp, fun a ha b hb => ?_⟩
          rw [List.mem_singleton] at hb
          subst hb
          exact hD3 a ha
        · intro r hr
          rcases List.mem_append.mp hr with h1 | h1
          · have := hB r h1
            constructor
            · exact this.1
            · push_cast at this ⊢
              omega
          · rw [List.mem_singleton] at h1
            subst h1
            refine ⟨hD1, ?_⟩
            push_cast at hD2 ⊢
            omega
      · rw [if_neg (by simp [hml])]
        refine scanInv_mk len (i + 1) _ _ _ hP ?_ (by omega)
          (fun _ => ⟨hD1, by push_cast at hD2 ⊢; omega, hD3⟩)
        intro r hr
        have := hB r hr
        constructor
        · exact this.1
        · push_cast at this ⊢
          omega
  | false =>
    rw [if_neg (by simp)]
    cases mc with
    | zero =>
      rw [if_neg (by simp)]
      refine scanInv_mk len (i + 1) _ _ _ hP ?_ hC (fun hmc => absurd hmc (by omega))
      intro r hr
      have := hB r hr
      constructor
      · exact this.1
      · push_cast at this ⊢
        omega
    | succ m =>
      rw [if_pos (by simp)]
      obtain ⟨hD1, hD2, hD3⟩ := hD (Nat.succ_pos m)
      have hBmono : ∀ r ∈ rows, 0 ≤ r ∧ r + (len : Int) ≤ ((i + 1 : Nat) : Int) := by
        intro r hr
        have := hB r hr
        constructor
        · exact this.1
        · push_cast at this ⊢
          omega
      cases hhit0 : (match nthF patterns 0 with | some pat => pat.matchLine l | none => false) with
      | true =>
        rw [if_pos rfl]
        exact scanInv_mk len (i + 1) rows mrow 1 hP hBmono (by omega)
          (fun _ => ⟨hD1, by push_cast at hD2 ⊢; omega, hD3⟩)
      | false =>
        rw [if_neg (by simp)]
        exact scanInv_mk len (i + 1) rows mrow 0 hP hBmono hpos
          (fun hmc => absurd hmc (by omega))

theorem blockScan_inv_fold (patterns : List Pattern) (hpos : 0 < patterns.length) :
    ∀ (ls : List String) (i : Nat) (st : BlockScan),
      ScanInv patterns.length i st →
      ScanInv patterns.length (i + ls.length)
        ((enumF i ls).foldl (blockStep patterns patterns.length) st) := by
  intro ls
  induction ls with
  | nil => intro i st h; simpa [enumF] using h
  | cons l ls ih =>
    intro i st h
    show ScanInv _ _ (((i, l) :: enumF (i + 1) ls).foldl (blockStep patterns patterns.length) st)
    rw [List.foldl_cons]
    have := ih (i + 1) (blockStep patterns patterns.length st (i, l))
      (blockStep_inv patterns patterns.length i hpos st l h)
    have harith : i + 1 + ls.length = i + (l :: ls).length := by simp; omega
    rwa [harith] at this

theorem blockScan_inv (patterns : List Pattern) (hp : patterns ≠ []) (ls : List String) :
    ScanInv patterns.length ls.length (blockScan patterns ls) := by
  have hpos : 0 < patterns.length := List.length_pos.mpr hp
  have h0 : ScanInv patterns.length 0 ⟨[], -1, 0⟩ :=
    ⟨List.Pairwise.nil, by simp, hpos, fun hmc => absurd hmc (by dsimp only; omega)⟩
  have := blockScan_inv_fold patterns hpos ls 0 ⟨[], -1, 0⟩ h0
  simpa [blockScan] using this

theorem spliceDelete_append (pre rest : List String) (d count : Nat)
    (hd : d + count ≤ rest.length) :
    spliceDeleteCount (pre ++ rest) ((pre.length + d : Nat) : Int) count =
      pre ++ (rest.take d ++ rest.drop (d + count)) := by
  have hs : spliceStart ((pre.length + d : Nat) : Int) (pre ++ rest).length = pre.length + d := by
    unfold spliceStart
    rw [if_neg (by omega), List.length_append]
    omega
  simp only [spliceDeleteCount]
  rw [hs, List.take_append_eq_append_take, List.take_of_length_le (by omega),
    Nat.add_sub_cancel_left,
    show pre.length + d + count = pre.length + (d + count) by omega,
    List.drop_append_eq_append_drop, List.drop_of_length_le (by omega),
    Nat.add_sub_cancel_left]
  simp

theorem delRuns_shift (len : Nat) :
    ∀ (qs : List Nat) (b s : Nat) (ls : List String), (∀ q ∈ qs, s ≤ q) →
      delRuns len (qs.map (fun q => q - s)) b ls = delRuns len qs (b + s) ls := by
  intro qs
  induction qs with
  | nil => intro b s ls _; rfl
  | cons q qs ih =>
    intro b s ls hs
    show delRuns len ((q - s) :: qs.map (fun x => x - s)) b ls = _
    unfold delRuns
    have h1 : q - s - b = q - (b + s) := by omega
    rw [h1, ih (q - s + len) s _ (fun x hx => hs x (by simp [hx])),
      show q - s + len + s = q + len by have := hs q (by simp); omega]

theorem foldDel (len : Nat) :
    ∀ (rows : List Int) (k : Nat) (pre cur : List String),
      List.Pairwise (fun a b => a + (len : Int) ≤ b) rows →
      (∀ r ∈ rows, (pre.length : Int) + (k : Int) * len ≤ r) →
      (∀ r ∈ rows, r + (len : Int) ≤ (pre.length : Int) + (k : Int) * len + cur.length) →
      (enumF k rows).foldl
        (fun acc kr => spliceDeleteCount acc (kr.2 - (kr.1 : Int) * len) len) (pre ++ cur)
      = pre ++ delRuns len
          (rows.map (fun r => (r - pre.length - (k : Int) * len).toNat)) 0 cur := by
  intro rows
  induction rows with
  | nil => intro k pre cur _ _ _; simp [enumF, delRuns]
  | cons r rs ih =>
    intro k pre cur hP hlow hhigh
    obtain ⟨hhead, htail⟩ := List.pairwise_cons.mp hP
    have hr_low : (pre.length : Int) + (k : Int) * len ≤ r := hlow r (by simp)
    have hr_high : r + (len : Int) ≤ (pre.length : Int) + (k : Int) * len + cur.length :=
      hhigh r (by simp)
    set pN : Nat := (r - pre.length - (k : Int) * len).toNat with hpN
    have hpN_eq : (pN : Int) = r - pre.length - (k : Int) * len := by omega
    have hfit : pN + len ≤ cur.length := by omega
    show (((k, r) :: enumF (k + 1) rs).foldl
        (fun acc kr => spliceDeleteCount acc (kr.2 - (kr.1 : Int) * len) len) (pre ++ cur)) = _
    rw [List.foldl_cons,
      show r - (k : Int) * len = ((pre.length + pN : Nat) : Int) by push_cast; omega,
      spliceDelete_append pre cur pN len hfit]
    have hassoc : pre ++ (cur.take pN ++ cur.drop (pN + len))
        = (pre ++ cur.take pN) ++ cur.drop (pN + len) := by simp
    rw [hassoc]
    have hpre' : (pre ++ cur.take pN).length = pre.length + pN := by
      simp [List.length_take]
      omega
    have hih := ih (k + 1) (pre ++ cur.take pN) (cur.drop (pN + len)) htail ?_ ?_
    · rw [hih]
      have hmap : rs.map (fun q => (q - ((pre ++ cur.take pN).length : Int)
            - ((k + 1 : Nat) : Int) * len).toNat)
          = (rs.map (fun q => (q - pre.length - (k : Int) * len).toNat)).map
              (fun x => x - (pN + len)) := by
        rw [List.map_map]
        refine List.map_congr_left (fun q hq => ?_)
        have hq1 : r + (len : Int) ≤ q := hhead q hq
        simp only [Function.comp, hpre']
        push_cast
        rw [show ((k : Int) + 1) * len = (k : Int) * len + len by ring]
        omega
      rw [hmap, delRuns_shift len _ 0 (pN + len) _ ?_]
      · show pre ++ cur.take pN ++ delRuns len _ (0 + (pN + len)) (cur.drop (pN + len))
          = pre ++ delRuns len (((r :: rs).map
              (fun q => (q - pre.length - (k : Int) * len).toNat))) 0 cur
        rw [List.map_cons, show ((r - pre.length - (k : Int) * len).toNat) = pN from rfl]
        show _ = pre ++ (cur.take (pN - 0) ++ delRuns len _ (pN + len) (cur.drop (pN - 0 + len)))
        simp only [Nat.sub_zero, Nat.zero_add, List.append_assoc]
      · intro x hx
        rw [List.mem_map] at hx
        obtain ⟨q, hq, rfl⟩ := hx
        have hq1 : r + (len : Int) ≤ q := hhead q hq
        omega
    · intro q hq
      have hq1 : r + (len : Int) ≤ q := hhead q hq
      rw [hpre']
      push_cast
      rw [show ((k : Int) + 1) * len = (k : Int) * len + len by ring]
      omega
    · intro q hq
      have hq1 : q + (len : Int) ≤ (pre.length : Int) + (k : Int) * len + cur.length :=
        hhigh q (by simp [hq])
      rw [hpre', List.length_drop]
      push_cast
      rw [show ((k : Int) + 1) * len = (k : Int) * len + len by ring]
      omega

/-- C5: the spec's non-overlap example holds; in general the runs recorded by
the `deleteEveryBlock` scan are pairwise at least a block-length apart (once a
run is consumed its lines cannot start or continue another match) and lie
within the document, and the deferred deletion phase — each later block's
splice start adjusted by the lines removed before it — removes exactly the
length-`block` runs at those recorded starting rows. -/
theorem deleteEveryBlock_nonoverlap (block : List Pattern) (content : String) :
    (deleteEveryBlock [Pattern.lit "one", Pattern.lit "one"] "one\none\none\ntwo" = "one\ntwo") ∧
    (block ≠ [] →
      List.Pairwise (fun a b => a + (block.length : Int) ≤ b)
        (blockScan block (linesOf content)).rows ∧
      (∀ r ∈ (blockScan block (linesOf content)).rows,
        0 ≤ r ∧ r + (block.length : Int) ≤ ((linesOf content).length : Int)) ∧
      deleteEveryBlock block content =
        joinLines (delRuns block.length
          ((blockScan block (linesOf content)).rows.map Int.toNat) 0 (linesOf content))) := by
  refine ⟨rfl, fun hb => ?_⟩
  obtain ⟨hP, hB, _, _⟩ := blockScan_inv block hb (linesOf content)
  refine ⟨hP, hB, ?_⟩
  simp only [deleteEveryBlock]
  rw [if_neg (by simp [hb])]
  have hfold := foldDel block.length (blockScan block (linesOf content)).rows 0 []
    (linesOf content) hP
    (fun r hr => by have := (hB r hr).1; simpa using this)
    (fun r hr => by have := (hB r hr).2; simpa using this)
  simp only [List.nil_append, List.length_nil] at hfold
  rw [hfold]
  congr 1
  refine congrArg (fun x => delRuns block.length x 0 (linesOf content)) ?_
  refine List.map_congr_left (fun r _ => ?_)
  push_cast
  omega

/-- C5 witness: the general part instantiated at the non-overlap example —
the scan records pairwise-separated, in-bounds rows and the result is the
run-deletion at those rows. -/
theorem deleteEveryBlock_nonoverlap_witness :
    List.Pairwise
      (fun a b => a + (([Pattern.lit "one", Pattern.lit "one"].length : Nat) : Int) ≤ b)
      (blockScan [Pattern.lit "one", Pattern.lit "one"] (linesOf "one\none\none\ntwo")).rows ∧
    (∀ r ∈ (blockScan [Pattern.lit "one", Pattern.lit "one"]
        (linesOf "one\none\none\ntwo")).rows,
      0 ≤ r ∧ r + (([Pattern.lit "one", Pattern.lit "one"].length : Nat) : Int)
        ≤ ((linesOf "one\none\none\ntwo").length : Int)) ∧
    deleteEveryBlock [Pattern.lit "one", Pattern.lit "one"] "one\none\none\ntwo" =
      joinLines (delRuns [Pattern.lit "one", Pattern.lit "one"].length
        ((blockScan [Pattern.lit "one", Pattern.lit "one"]
          (linesOf "one\none\none\ntwo")).rows.map Int.toNat)
        0 (linesOf "one\none\none\ntwo")) :=
  (deleteEveryBlock_nonoverlap [Pattern.lit "one", Pattern.lit "one"]
    "one\none\none\ntwo").2 (by simp)

end Scripting
